import Mathlib

/-!
Verification of the runtime-configuration and session subsystem of the
rag-template frontend.  Definitions are shallow embeddings of the
TypeScript / shell sources under `src/`; theorems settle the frozen claims
about them.
-/

namespace RagFrontend

/- ### Runtime config resolver (`pickValue`, `isPlaceholder`)

Embeds `src/services/frontend/libs/chat-app/data-access/chat.api.ts` lines
6-11 (the identical copies in `document.api.ts`, the chat store and the
upload container share this definition):

```ts
const isPlaceholder = (value: string | undefined) =>
  !value \x7c\x7c /^VITE_[A-Z0-9_]+$/.test(value);
const pickValue = (...candidates: Array<string | undefined>) =>
  candidates.find((v) => !isPlaceholder(v));
```

A JS `string | undefined` is `Option String`; `!value` is true exactly for
`undefined` and the empty string. -/

/-- Character class `[A-Z0-9_]` of the placeholder regex. -/
def isPlaceholderChar (c : Char) : Bool :=
  (decide ('A' ≤ c) && decide (c ≤ 'Z'))
    || (decide ('0' ≤ c) && decide (c ≤ '9'))
    || decide (c = '_')

/-- Embeds `/^VITE_[A-Z0-9_]+$/.test s`: the whole string is `VITE_` followed by
one or more characters from `[A-Z0-9_]`. -/
def placeholderMatch (s : String) : Bool :=
  match s.data with
  | 'V' :: 'I' :: 'T' :: 'E' :: '_' :: rest => !rest.isEmpty && rest.all isPlaceholderChar
  | _ => false

/-- Embeds `isPlaceholder` from the source: true for `undefined`, the empty string,
and any string matching the placeholder regex. -/
def isPlaceholder : Option String → Bool
  | none => true
  | some s => s == "" || placeholderMatch s

/-- Embeds `pickValue`: `candidates.find((v) => !isPlaceholder(v))`, which yields
`undefined` when nothing is found; a found candidate is necessarily a
present string. -/
def pickValue (candidates : List (Option String)) : Option String :=
  (candidates.find? (fun v => !isPlaceholder v)).join

/-- Spec-side reading of "absent": undefined, empty, or `VITE_` followed by
(one or more) uppercase letters, digits or underscores only. -/
def AbsentSpec (v : Option String) : Prop :=
  v = none ∨ v = some "" ∨
    ∃ s rest, v = some s ∧ s.data = 'V' :: 'I' :: 'T' :: 'E' :: '_' :: rest ∧
      rest ≠ [] ∧ ∀ c ∈ rest, ('A' ≤ c ∧ c ≤ 'Z') ∨ ('0' ≤ c ∧ c ≤ '9') ∨ c = '_'

/- ### Base-URL normalization

Embeds `chat.api.ts` lines 13-21 and the identical `document.api.ts`
lines 12-22:

```ts
const normalizedBaseUrl = rawBaseUrl?.replace(/\/+$/, '') \x7c\x7c '';
const apiBaseUrl = /\/api$/.test(normalizedBaseUrl)
  ? normalizedBaseUrl
  : `${normalizedBaseUrl}/api`;
```
-/

/-- Embeds `replace(/\/+$/, '')` on the character list: drop the maximal run of
trailing `'/'`. -/
def dropTrailingSlashes (l : List Char) : List Char :=
  (l.reverse.dropWhile (fun c => c == '/')).reverse

/-- Embeds `s.replace(/\/+$/, '')`. -/
def stripTrailingSlashes (s : String) : String :=
  ⟨dropTrailingSlashes s.data⟩

/-- Embeds `rawBaseUrl?.replace(/\/+$/, '') \x7c\x7c ''`: an undefined raw URL (and an
empty stripped result) collapse to the empty string. -/
def normalizedBaseUrlOf (raw : Option String) : String :=
  match raw with
  | none => ""
  | some s => stripTrailingSlashes s

/-- Embeds `/\/api$/.test s`: the last four characters are `/api`, checked on the
reversed character list. -/
def hasApiSuffix (s : String) : Bool :=
  match s.data.reverse with
  | 'i' :: 'p' :: 'a' :: '/' :: _ => true
  | _ => false

/-- The suffix branch: keep the string if it already ends in `/api`, else
append `/api`. -/
def ensureApiSuffix (s : String) : String :=
  if hasApiSuffix s then s else s ++ "/api"

/-- The full normalization applied to one string: strip trailing slashes,
then ensure the `/api` suffix. -/
def normalizeBaseUrl (s : String) : String :=
  ensureApiSuffix (stripTrailingSlashes s)

/-- Embeds `apiBaseUrl` as computed from the raw `pickValue` result. -/
def apiBaseUrlOf (raw : Option String) : String :=
  ensureApiSuffix (normalizedBaseUrlOf raw)

/-- Embeds `rawBaseUrl` of `chat.api.ts`: runtime `VITE_API_URL`, then the baked
`VITE_API_URL`, then `window.location.origin` (always a present string). -/
def chatRawBaseUrl (runtimeApiUrl buildApiUrl : Option String) (origin : String) :
    Option String :=
  pickValue [runtimeApiUrl, buildApiUrl, some origin]

/-- Embeds `rawBaseUrl` of `document.api.ts`: admin-API variable, then generic
admin variable, then the page origin. -/
def adminRawBaseUrl (runtimeAdminApiUrl buildAdminApiUrl runtimeAdminUrl
    buildAdminUrl : Option String) (origin : String) : Option String :=
  pickValue [runtimeAdminApiUrl, buildAdminApiUrl, runtimeAdminUrl,
    buildAdminUrl, some origin]

/- ### Chat API client auth (`chat.api.ts` lines 27-47)

The axios request config is reduced to the parts the interceptor touches:
the `Authorization` header and the basic-auth credential. -/

structure RequestHeaders where
  authorization : Option String
deriving DecidableEq

structure BasicCreds where
  username : String
  password : String
deriving DecidableEq

structure RequestConfig where
  headers : RequestHeaders
  auth : Option BasicCreds
deriving DecidableEq

/-- JS `String(x)` on a `string | undefined` value. -/
def jsStringOfOption (v : Option String) : String :=
  v.getD "undefined"

/-- Embeds `isChatAuthEnabled`:
`String(pickValue(...)).toLowerCase() === 'true'`. -/
def isChatAuthEnabledOf (runtimeFlag buildFlag : Option String) : Bool :=
  (jsStringOfOption (pickValue [runtimeFlag, buildFlag])).toLower == "true"

/-- Embeds `apiClient.defaults.auth` (lines 31-36): set only when the flag is
enabled and both credentials are truthy (non-empty). -/
def chatDefaultAuth (enabled : Bool) (u p : Option String) : Option BasicCreds :=
  match u, p with
  | some u', some p' =>
    if enabled ∧ u' ≠ "" ∧ p' ≠ "" then some ⟨u', p'⟩ else none
  | _, _ => none

/-- The request interceptor (lines 39-47): with a token, set the bearer
header and clear any basic-auth credential; otherwise pass the config
through unchanged. -/
def requestInterceptor (token : Option String) (cfg : RequestConfig) :
    RequestConfig :=
  match token with
  | some t => { cfg with
      headers := { authorization := some ("Bearer " ++ t) },
      auth := none }
  | none => cfg

/-- An outgoing chat request: fresh config carrying the configured default
basic auth, run through the interceptor with the current token. -/
def chatRequestOf (token : Option String) (basic : Option BasicCreds) :
    RequestConfig :=
  requestInterceptor token { headers := ⟨none⟩, auth := basic }

/- ### JSON-ish claim values

JWT claims reach the client as arbitrary JSON; the store and the upload
container probe them with JS truthiness, `String()` and small coercion
helpers (`toStringList`, `toBool`).  `jnull` also stands for an absent
(undefined) claim, which behaves identically in every probe used. -/

inductive JVal where
  | jstr : String → JVal
  | jnum : Int → JVal
  | jbool : Bool → JVal
  | jarr : List JVal → JVal
  | jnull : JVal

/-- JS truthiness of a claim value (objects/arrays are always truthy). -/
def jvalTruthy : JVal → Bool
  | .jstr s => s != ""
  | .jnum n => n != 0
  | .jbool b => b
  | .jarr _ => true
  | .jnull => false

mutual

/-- JS `String(x)` of a claim value. -/
def jvalToString : JVal → String
  | .jstr s => s
  | .jnum n => toString n
  | .jbool b => cond b "true" "false"
  | .jarr l => String.intercalate "," (jvalListToStrings l)
  | .jnull => "null"

def jvalListToStrings : List JVal → List String
  | [] => []
  | v :: vs => jvalToString v :: jvalListToStrings vs

end

/-- Embeds `toStringList` (chat store lines 71-81; identical helper in the upload
container): arrays map to `String` and drop falsy entries; non-blank
strings split on commas (or stand alone, trimmed); everything else is
empty. -/
def toStringList : JVal → List String
  | .jarr l => (jvalListToStrings l).filter (fun s => s != "")
  | .jstr s =>
    if s.trim.length > 0 then
      if s.contains ',' then
        ((s.splitOn ",").map String.trim).filter (fun x => x != "")
      else [s.trim]
    else []
  | _ => []

/-- Embeds `toBool` (upload container lines 37-42). -/
def toBool : JVal → Bool
  | .jbool b => b
  | .jnum n => n != 0
  | .jstr s => ["1", "true", "yes", "on"].contains s.toLower
  | _ => false

/-- The access-token claims the frontend inspects (cf. the knowledge-spaces
doc: `tenant_id`, `allowed_tenant_ids`, `allowed_domain_ids`,
`can_write_shared_domain`, `can_write_global`).  An absent claim is
`jnull`. -/
structure TokenClaims where
  tenant_id : JVal
  allowed_tenant_ids : JVal
  allowed_domain_ids : JVal
  can_write_shared_domain : JVal
  can_write_global : JVal

/- ### Chat store scope selection (`src/unnamed/part_004`)

State is reduced to the scope-related refs plus the persisted storage key.
`storage` models localStorage key `chat.scope.selection.v1` after the JSON
codec: `none` is an absent key, `some l` a stored JSON array of strings
(`restoreSelectedScopes` maps a malformed or non-array value to `[]`,
which the codec-level model leaves out).  `enabled` is the
`isScopeSelectorEnabled` flag, fixed per deployment; `tr` is the i18n
translation function `t`. -/

structure ScopeOption where
  id : String
  label : String
deriving DecidableEq

structure ChatScopeState where
  availableScopes : List ScopeOption
  selectedScopeIds : List String
  storage : Option (List String)
deriving DecidableEq

/-- The global scope option built inside `updateAvailableScopes`. -/
def globalScope (tr : String → String) : ScopeOption :=
  ⟨"shared_global", tr "chat.scopeGlobal"⟩

/-- Initial store state (line 36 hardcodes the label `"Global"`): the
global option alone, nothing selected, storage as found. -/
def chatStoreInit (stored : Option (List String)) : ChatScopeState :=
  { availableScopes := [⟨"shared_global", "Global"⟩]
    selectedScopeIds := []
    storage := stored }

def persistSelectedScopes (st : ChatScopeState) : ChatScopeState :=
  { st with storage := some st.selectedScopeIds }

def clearPersistedScopes (st : ChatScopeState) : ChatScopeState :=
  { st with storage := none }

/-- Embeds `restoreSelectedScopes` (lines 91-108): with the selector disabled,
clear selection and storage; otherwise adopt the stored list verbatim
(no pruning happens here). -/
def restoreSelectedScopes (enabled : Bool) (st : ChatScopeState) :
    ChatScopeState :=
  if !enabled then { st with selectedScopeIds := [], storage := none }
  else
    match st.storage with
    | none => { st with selectedScopeIds := [] }
    | some l => { st with selectedScopeIds := l }

/-- Embeds `normalizeSelectedScopes` (lines 110-119). -/
def normalizeSelectedScopes (enabled : Bool) (st : ChatScopeState) :
    ChatScopeState :=
  if !enabled then { st with selectedScopeIds := [], storage := none }
  else
    let allowed := st.availableScopes.map (fun s => s.id)
    let sel := st.selectedScopeIds.filter (fun i => allowed.contains i)
    { st with selectedScopeIds := sel, storage := some sel }

/-- The scope option list built from claims (lines 131-146). -/
def scopeOptionsFor (tr : String → String) (claims : Option TokenClaims) :
    List ScopeOption :=
  let base := [globalScope tr]
  match claims with
  | none => base
  | some c =>
    let tids0 := toStringList c.allowed_tenant_ids
    let tids :=
      if jvalTruthy c.tenant_id && !(tids0.contains (jvalToString c.tenant_id))
      then jvalToString c.tenant_id :: tids0
      else tids0
    base
      ++ tids.map (fun i =>
          ⟨"tenant_" ++ i, tr "chat.scopeTenant" ++ " " ++ i⟩)
      ++ (toStringList c.allowed_domain_ids).map (fun d =>
          ⟨"shared_" ++ d, tr "chat.scopeDomain" ++ " " ++ d⟩)

/-- Embeds `updateAvailableScopes` (lines 121-150), with the token and decoded
claims delivered by the auth service passed explicitly: no token yields
the single global option, otherwise the claim-derived list; both branches
end in normalization. -/
def updateAvailableScopes (enabled : Bool) (tr : String → String)
    (token : Option String) (claims : Option TokenClaims)
    (st : ChatScopeState) : ChatScopeState :=
  match token with
  | none =>
    normalizeSelectedScopes enabled
      { st with availableScopes := [globalScope tr] }
  | some _ =>
    normalizeSelectedScopes enabled
      { st with availableScopes := scopeOptionsFor tr claims }

/-- Embeds `toggleScope` (lines 272-282). -/
def toggleScope (enabled : Bool) (scopeId : String) (st : ChatScopeState) :
    ChatScopeState :=
  if !enabled then st
  else
    let sel :=
      if st.selectedScopeIds.contains scopeId
      then st.selectedScopeIds.filter (fun i => i != scopeId)
      else st.selectedScopeIds ++ [scopeId]
    normalizeSelectedScopes enabled { st with selectedScopeIds := sel }

/-- Embeds `selectAllScopes` (lines 284-290): "all scopes" is represented by the
empty selection, persisted as such. -/
def selectAllScopes (enabled : Bool) (st : ChatScopeState) : ChatScopeState :=
  if !enabled then st
  else persistSelectedScopes { st with selectedScopeIds := [] }

/-- Embeds `logout` (lines 265-270): clear the selection and the storage key, then
refresh the available scopes.  `authService.logout()` precedes the refresh,
so the token accessor yields nothing afterwards (auth.service is not under
`src/`; the spec fixes that logout leaves the session unauthenticated and
the token accessor returning undefined), hence `token := none`. -/
def logoutChat (enabled : Bool) (tr : String → String) (st : ChatScopeState) :
    ChatScopeState :=
  updateAvailableScopes enabled tr none none
    (clearPersistedScopes { st with selectedScopeIds := [] })

/-- A store state with the default available scopes and a stale persisted
selection, as left behind by an earlier session. -/
def c2CounterState : ChatScopeState :=
  { availableScopes := [⟨"shared_global", "Global"⟩]
    selectedScopeIds := []
    storage := some ["stale"] }

/-- The invariant of claim C2: every selected id names an available scope. -/
def ScopeSubsetInv (st : ChatScopeState) : Prop :=
  ∀ i ∈ st.selectedScopeIds, i ∈ st.availableScopes.map (fun s => s.id)

instance (st : ChatScopeState) : Decidable (ScopeSubsetInv st) := by
  unfold ScopeSubsetInv
  infer_instance

/- ### Placeholder injector (`src/services/frontend/env.sh`)

The sed loop

```sh
env | grep '^VITE_' | while IFS= read -r line; do
    key="${line%%=*}"; value="${line#*=}"
    escaped_value=$(printf '%s' "$value" | sed -e 's/[\\&|]/\\&/g')
    find "$TARGET_DIR" -type f \( -name '*.js' -o -name '*.css' \) \
      -exec sed -i "s|${key}|${escaped_value}|g" '{}' +
done
```

replaces, for each environment pair in order, every occurrence of the key
inside every target file with the raw value (the escaping makes the value
land literally, so the model substitutes the unescaped value).  `sed s/../g`
scans left to right and resumes after each replacement, which
`replaceAllGo` reproduces; the fuel argument (initially the input length,
an upper bound on the scan steps) only makes the recursion structural. -/

def replaceAllGo (pat val : List Char) : Nat → List Char → List Char
  | _, [] => []
  | 0, l => l
  | fuel + 1, c :: rest =>
    if pat.isPrefixOf (c :: rest)
    then val ++ replaceAllGo pat val fuel (rest.drop (pat.length - 1))
    else c :: replaceAllGo pat val fuel rest

/-- Embeds `sed "s\x7cpat\x7cval\x7cg"` on one file content (sed rejects an empty
pattern, and every key here starts with `VITE_`). -/
def replaceAll (pat val l : List Char) : List Char :=
  if pat.isEmpty then l else replaceAllGo pat val l.length l

/-- One run of the sed loop over a single file: fold the environment pairs
in order. -/
def injectEnvFile (env : List (String × String)) (file : String) : String :=
  env.foldl (fun f kv => ⟨replaceAll kv.1.data kv.2.data f.data⟩) file

/-- One run of the sed loop over the directory's `.js`/`.css` contents. -/
def injectEnvFiles (env : List (String × String)) (files : List String) :
    List String :=
  files.map (injectEnvFile env)

/-- JSON escaping of the config generation:
`sed -e 's/\\/\\\\/g' -e 's/"/\\"/g'`. -/
def jsonEscape (s : String) : String :=
  ⟨s.data.foldr (fun c acc =>
    if c = '\\' then '\\' :: '\\' :: acc
    else if c = '"' then '\\' :: '"' :: acc
    else c :: acc) []⟩

/-- The generated `config.js` (lines 22-31): a deterministic function of
the environment, rewritten from scratch (`>`) on every run. -/
def configJsFor (env : List (String × String)) : String :=
  "window.config = \x7b\n"
    ++ String.join (env.map (fun kv =>
        "  \"" ++ kv.1 ++ "\": \"" ++ jsonEscape kv.2 ++ "\",\n"))
    ++ "\x7d;\n"

/-- Does `pat` occur as a contiguous substring of `l`? -/
def containsSub (pat : List Char) : List Char → Bool
  | [] => pat.isEmpty
  | c :: rest => pat.isPrefixOf (c :: rest) || containsSub pat rest

/-- C5 counterexample environment: one variable whose value contains its
own key name. -/
def c5Env : List (String × String) := [("VITE_A", "zVITE_Az")]

/-- C5 counterexample file: a built asset containing the placeholder. -/
def c5File : String := "VITE_A"

/- ### Auth session token renewal (claim C6)

Modelled from the spec: the Auth Session Manager (`auth.service`) is not
under `src/`; spec section 5 mandates that concurrent `get access token`
calls during expiry share one pending renewal operation ("treat concurrent
refresh calls as a shared pending operation rather than issuing parallel
refreshes") and that all callers observe its result.  The manager state
tracks the callers parked on the in-flight renewal and counts issued
renewal network calls; a batch of concurrent expired-token requests is the
fold of the request step, resolved by one completion. -/

structure RefreshManager where
  pending : Option (List Nat)
  networkCalls : Nat
deriving DecidableEq

/-- Modelled from the spec: one caller asks for a token while the stored
token is expired.  If a renewal is already in flight the caller joins it;
otherwise a renewal network call is issued and the caller waits on it. -/
def requestWhileExpired (m : RefreshManager) (caller : Nat) : RefreshManager :=
  match m.pending with
  | some waiters => { m with pending := some (waiters ++ [caller]) }
  | none => { pending := some [caller], networkCalls := m.networkCalls + 1 }

/-- Modelled from the spec: the in-flight renewal resolves with `outcome`
(a renewed token or a failure), which every parked caller observes. -/
def completeRenewal (m : RefreshManager) (outcome : Except String String) :
    RefreshManager × List (Nat × Except String String) :=
  ({ pending := none, networkCalls := m.networkCalls },
    (m.pending.getD []).map (fun c => (c, outcome)))

/-- Modelled from the spec: a batch of concurrent callers hitting an
expired token, followed by the renewal resolving.  Returns the number of
renewal network calls issued and each caller's observed outcome. -/
def runConcurrentRefresh (callers : List Nat)
    (outcome : Except String String) :
    Nat × List (Nat × Except String String) :=
  let m := callers.foldl requestWhileExpired ⟨none, 0⟩
  ((completeRenewal m outcome).1.networkCalls, (completeRenewal m outcome).2)

/- ### Admin upload container
(`src/services/frontend/libs/admin-app/feature-document/DocumentUploadContainer.vue`)

`atob` and `JSON.parse` are the browser primitives the decoder wraps in
`try/catch`; they are passed as `Option`-valued functions (`none` models a
thrown decoding error).  `tr` is the i18n `t`; the interpolated
shared-domain label is abstracted as translation-plus-domain-id. -/

/-- The base64url-to-base64 step of the decoder: every `-` becomes `+` and
every `_` becomes `/` (two global `replace` calls in the source). -/
def base64UrlNormalize (s : String) : String :=
  ⟨s.data.map (fun c => if c = '-' then '+' else if c = '_' then '/' else c)⟩

/-- Embeds `normalized.padEnd(Math.ceil(normalized.length / 4) * 4, '=')`. -/
def padBase64 (s : String) : String :=
  let target := ((s.length + 3) / 4) * 4
  s ++ ⟨List.replicate (target - s.length) '='⟩

/-- JS `token.split('.')` on the character list (separator is a single
character, every occurrence splits). -/
def splitOnChar (sep : Char) : List Char → List (List Char)
  | [] => [[]]
  | c :: rest =>
    let r := splitOnChar sep rest
    if c == sep then [] :: r
    else
      match r with
      | [] => [[c]]
      | g :: gs => (c :: g) :: gs

def jsSplitDot (s : String) : List String :=
  (splitOnChar '.' s.data).map (fun l => ⟨l⟩)

/-- Embeds `decodeJwtClaims` (upload container lines 56-66): fewer than two
dot-separated parts, a failing `atob`, or a failing `JSON.parse` all yield
`null`; the function itself never throws (the `try/catch` turns primitive
exceptions into `null`, rendered here by the `Option` primitives). -/
def decodeJwtClaims (atob : String → Option String)
    (jparse : String → Option TokenClaims) (token : String) :
    Option TokenClaims :=
  let parts := jsSplitDot token
  if parts.length < 2 then none
  else
    let normalized := base64UrlNormalize ((parts.get? 1).getD "")
    let padded := padBase64 normalized
    match atob padded with
    | none => none
    | some payload => jparse payload

structure TargetOption where
  id : String
  label : String
deriving DecidableEq

/-- The initial (and fallback) option list: the caller's own tenant only. -/
def defaultTargetOptions (tr : String → String) : List TargetOption :=
  [⟨"my_tenant", tr "documents.targetMyTenant"⟩]

/-- The option list built from successfully decoded claims
(lines 81-94). -/
def buildTargetOptions (tr : String → String) (claims : TokenClaims) :
    List TargetOption :=
  let base := defaultTargetOptions tr
  let domainIds := toStringList claims.allowed_domain_ids
  let withDomains :=
    if toBool claims.can_write_shared_domain
    then base ++ domainIds.map (fun d =>
      ⟨"shared_" ++ d, tr "documents.targetSharedDomain" ++ " " ++ d⟩)
    else base
  if toBool claims.can_write_global
  then withDomains ++ [⟨"shared_global", tr "documents.targetGlobal"⟩]
  else withDomains

/-- Embeds `onMounted` (lines 74-95) as the option list it leaves behind: every
early return (flag disabled, no token, undecodable claims) keeps the
default tenant-only list. -/
def mountUploadTargetOptions (tr : String → String) (flag : Bool)
    (token : Option String) (atob : String → Option String)
    (jparse : String → Option TokenClaims) : List TargetOption :=
  if !flag then defaultTargetOptions tr
  else
    match token with
    | none => defaultTargetOptions tr
    | some t =>
      match decodeJwtClaims atob jparse t with
      | none => defaultTargetOptions tr
      | some claims => buildTargetOptions tr claims

/-- Embeds `showUploadTargetSelector` (lines 33-35). -/
def showUploadTargetSelector (flag : Bool) (options : List TargetOption) :
    Bool :=
  flag && decide (options.length > 1)

/-- Embeds `resolveTargetSpaceId` (lines 68-72): `undefined` (the caller's-own-
tenant sentinel) when the selector is hidden or the selection is
`my_tenant`; otherwise the selected id. -/
def resolveTargetSpaceId (flag : Bool) (options : List TargetOption)
    (selected : String) : Option String :=
  if !(showUploadTargetSelector flag options) then none
  else if selected == "my_tenant" then none
  else some selected

/- ### Document API (`src/services/frontend/libs/admin-app/data-access/document.api.ts`)

Each static method wraps one request in `try/catch`; the catch delegates
to `handleError`, which logs (`error.response?.data \x7c\x7c error.message` for
axios errors) and rethrows the same error.  The transport is passed as a
function/outcome parameter; an operation's result is the pair of emitted
log lines and the `Except` outcome the caller sees.  The document payload
type is irrelevant to the claims (its model file is not under `src/`). -/

structure DocumentModel where
  name : String
  status : String
deriving DecidableEq

inductive ApiFailure where
  | axios (message : String) (responseData : Option String)
  | unexpected (description : String)
deriving DecidableEq

/-- The log line `handleError` emits:
`console.error('Axios error:', error.response?.data \x7c\x7c error.message)` for
axios errors (a falsy — empty — response body falls back to the message),
`console.error('Unexpected error:', error)` otherwise. -/
def errorLogLine : ApiFailure → String
  | .axios msg rd =>
    "Axios error: " ++ (match rd with
      | some d => if d = "" then msg else d
      | none => msg)
  | .unexpected d => "Unexpected error: " ++ d

/-- Embeds `handleError` (lines 187-194): log, then rethrow the very error. -/
def handleError (e : ApiFailure) : List String × ApiFailure :=
  ([errorLogLine e], e)

/-- A single attempted request: success passes the response through with
no log; failure is logged and rethrown unchanged. -/
def runRequest {α : Type} (outcome : Except ApiFailure α) :
    List String × Except ApiFailure α :=
  match outcome with
  | .ok a => ([], .ok a)
  | .error e => ((handleError e).1, .error (handleError e).2)

/-- Embeds `loadDocuments`: one GET of `/all_documents_status`. -/
def loadDocuments (net : Except ApiFailure (List DocumentModel)) :
    List String × Except ApiFailure (List DocumentModel) :=
  runRequest net

/-- Embeds `uploadDocument`: one multipart POST of the file to `/upload_file`. -/
def uploadDocument (file : String) (net : String → Except ApiFailure Unit) :
    List String × Except ApiFailure Unit :=
  runRequest (net file)

structure KV where
  key : String
  value : String
deriving DecidableEq

structure ConfluenceConfig where
  spaceKey : Option String
  cql : Option String
  token : String
  url : String
  maxPages : Option Int
  name : String

/-- The key/value payload `loadConfluence` builds (lines 88-106). -/
def confluencePayload (config : ConfluenceConfig) : List KV :=
  let base := [⟨"url", config.url.trim⟩, ⟨"token", config.token⟩]
  let withSpace :=
    match config.spaceKey.map String.trim with
    | some sk => if sk ≠ "" then base ++ [⟨"space_key", sk⟩] else base
    | none => base
  let withCql :=
    match config.cql.map String.trim with
    | some q => if q ≠ "" then withSpace ++ [⟨"cql", q⟩] else withSpace
    | none => withSpace
  match config.maxPages with
  | some n => withCql ++ [⟨"max_pages", toString n⟩]
  | none => withCql

/-- Embeds `loadConfluence`: build the payload, POST it once, log-and-rethrow on
failure. -/
def loadConfluence (net : List KV → Except ApiFailure Unit)
    (config : ConfluenceConfig) : List String × Except ApiFailure Unit :=
  runRequest (net (confluencePayload config))

inductive SitemapParser where
  | docusaurus
  | astro
  | generic
deriving DecidableEq

def sitemapParserName : SitemapParser → String
  | .docusaurus => "docusaurus"
  | .astro => "astro"
  | .generic => "generic"

structure SitemapConfig where
  webPath : String
  filterUrls : String
  headerTemplate : String
  name : String
  parser : Option SitemapParser
  continueOnFailure : Option Bool

/-- Embeds `JSON.stringify` of a string array, as used for `filter_urls`. -/
def jsonStringifyStrings (l : List String) : String :=
  "[" ++ String.intercalate "," (l.map (fun u => "\"" ++ jsonEscape u ++ "\"")) ++ "]"

/-- The payload construction of `loadSitemap` (lines 119-157), including
its two internally thrown errors: the (statically unreachable) parser
guard and the header-template JSON validation.  `jsonValid` models
`JSON.parse` succeeding on the header template. -/
def sitemapPayload (jsonValid : String → Bool) (config : SitemapConfig) :
    Except ApiFailure (List KV) :=
  let base := [KV.mk "web_path" config.webPath]
  let step1 : Except ApiFailure (List KV) :=
    match config.parser with
    | some p =>
      if [SitemapParser.docusaurus, SitemapParser.astro,
          SitemapParser.generic].contains p
      then .ok (base ++ [⟨"sitemap_parser", sitemapParserName p⟩])
      else .error (.unexpected
        ("Unsupported sitemap parser: " ++ sitemapParserName p))
    | none => .ok base
  match step1 with
  | .error e => .error e
  | .ok l1 =>
    let l2 :=
      match config.continueOnFailure with
      | some b => l1 ++ [⟨"continue_on_failure", cond b "true" "false"⟩]
      | none => l1
    let filterUrlsArray :=
      ((config.filterUrls.splitOn "\n").map String.trim).filter
        (fun u => u.length > 0)
    let l3 :=
      if config.filterUrls ≠ "" ∧ config.filterUrls.trim ≠ "" then
        if filterUrlsArray.length > 0
        then l2 ++ [⟨"filter_urls", jsonStringifyStrings filterUrlsArray⟩]
        else l2
      else l2
    if config.headerTemplate ≠ "" ∧ config.headerTemplate.trim ≠ "" then
      if jsonValid config.headerTemplate
      then .ok (l3 ++ [⟨"header_template", config.headerTemplate⟩])
      else .error (.unexpected "Header template must be valid JSON format")
    else .ok l3

/-- Embeds `loadSitemap`: build the payload (whose own validation errors fall into
the same catch), POST once, log-and-rethrow on failure. -/
def loadSitemap (jsonValid : String → Bool)
    (net : List KV → Except ApiFailure Unit) (config : SitemapConfig) :
    List String × Except ApiFailure Unit :=
  match sitemapPayload jsonValid config with
  | .error e => ((handleError e).1, .error (handleError e).2)
  | .ok payload => runRequest (net payload)

/-- Embeds `deleteDocument`: one DELETE of `/delete_document/{id}`. -/
def deleteDocument (net : String → Except ApiFailure Unit)
    (documentId : String) : List String × Except ApiFailure Unit :=
  runRequest (net ("/delete_document/" ++ documentId))

/-- Embeds `getDocumentReference`: one GET of `/document_reference/{id}`. -/
def getDocumentReference (net : String → Except ApiFailure String)
    (id : String) : List String × Except ApiFailure String :=
  runRequest (net ("/document_reference/" ++ id))

/-- A concrete sitemap configuration with the optional inputs left blank. -/
def sitemapCfgW : SitemapConfig :=
  { webPath := "https://s", filterUrls := "", headerTemplate := ""
    name := "n", parser := none, continueOnFailure := none }

/-- A concrete confluence configuration with the optional inputs absent. -/
def confluenceCfgW : ConfluenceConfig :=
  { spaceKey := none, cql := none, token := "tok", url := "https://c"
    maxPages := none, name := "n" }

lemma isPlaceholderChar_iff (c : Char) :
    isPlaceholderChar c = true ↔
      ('A' ≤ c ∧ c ≤ 'Z') ∨ ('0' ≤ c ∧ c ≤ '9') ∨ c = '_' := by
  simp [isPlaceholderChar, or_assoc]

lemma placeholderMatch_iff (s : String) :
    placeholderMatch s = true ↔
      ∃ rest, s.data = 'V' :: 'I' :: 'T' :: 'E' :: '_' :: rest ∧ rest ≠ [] ∧
        ∀ c ∈ rest, ('A' ≤ c ∧ c ≤ 'Z') ∨ ('0' ≤ c ∧ c ≤ '9') ∨ c = '_' := by
  unfold placeholderMatch
  split
  case _ rest heq =>
    constructor
    · intro h
      rw [Bool.and_eq_true] at h
      refine ⟨rest, heq, ?_, ?_⟩
      · intro hnil
        rw [hnil] at h
        simp at h
      · intro c hc
        rw [← isPlaceholderChar_iff]
        exact List.all_eq_true.mp h.2 c hc
    · rintro ⟨rest', heq', hne, hall⟩
      rw [heq] at heq'
      obtain ⟨rfl⟩ : rest = rest' := by
        simpa using heq'
      rw [Bool.and_eq_true]
      constructor
      · simpa [List.isEmpty_iff] using hne
      · exact List.all_eq_true.mpr fun c hc => (isPlaceholderChar_iff c).mpr (hall c hc)
  case _ hno =>
    constructor
    · intro h
      simp at h
    · rintro ⟨rest, heq, -, -⟩
      exact absurd heq (hno rest)

lemma isPlaceholder_iff_absent (v : Option String) :
    isPlaceholder v = true ↔ AbsentSpec v := by
  cases v with
  | none => simp [isPlaceholder, AbsentSpec]
  | some s =>
    simp only [isPlaceholder, Bool.or_eq_true, beq_iff_eq, AbsentSpec]
    rw [placeholderMatch_iff]
    constructor
    · rintro (rfl | ⟨rest, hdata, hne, hall⟩)
      · exact Or.inr (Or.inl rfl)
      · exact Or.inr (Or.inr ⟨s, rest, rfl, hdata, hne, hall⟩)
    · rintro (h | h | ⟨s', rest, hs, hdata, hne, hall⟩)
      · cases h
      · exact Or.inl (by injection h)
      · obtain ⟨rfl⟩ : s = s' := by injection hs
        exact Or.inr ⟨rest, hdata, hne, hall⟩

lemma pickValue_nil : pickValue [] = none := rfl

lemma pickValue_cons (v : Option String) (cs : List (Option String)) :
    pickValue (v :: cs) = if isPlaceholder v then pickValue cs else v := by
  cases hv : isPlaceholder v with
  | true => simp [pickValue, List.find?_cons, hv]
  | false =>
    cases v with
    | none => simp [isPlaceholder] at hv
    | some s => simp [pickValue, List.find?_cons, hv]

lemma pickValue_eq_none_iff (cs : List (Option String)) :
    pickValue cs = none ↔ ∀ v ∈ cs, AbsentSpec v := by
  induction cs with
  | nil => simp [pickValue_nil]
  | cons v cs ih =>
    rw [pickValue_cons]
    by_cases h : isPlaceholder v
    · have habs : AbsentSpec v := (isPlaceholder_iff_absent v).mp h
      simp only [if_pos h, ih]
      constructor
      · intro hall w hw
        rcases List.mem_cons.mp hw with rfl | hw
        · exact habs
        · exact hall w hw
      · intro hall w hw
        exact hall w (List.mem_cons_of_mem v hw)
    · have habs : ¬ AbsentSpec v := fun ha => h ((isPlaceholder_iff_absent v).mpr ha)
      simp only [if_neg h]
      constructor
      · intro hv
        cases v with
        | none => exact absurd (Or.inl rfl) habs
        | some s => cases hv
      · intro hall
        exact absurd (hall v (List.mem_cons_self v cs)) habs

lemma pickValue_eq_some_iff (cs : List (Option String)) (r : String) :
    pickValue cs = some r ↔
      ∃ pre post, cs = pre ++ some r :: post ∧ ¬ AbsentSpec (some r) ∧
        ∀ v ∈ pre, AbsentSpec v := by
  induction cs with
  | nil =>
    simp only [pickValue_nil]
    constructor
    · intro h; cases h
    · rintro ⟨pre, post, h, -, -⟩
      exact absurd h (by simp)
  | cons v cs ih =>
    rw [pickValue_cons]
    by_cases h : isPlaceholder v
    · have habs : AbsentSpec v := (isPlaceholder_iff_absent v).mp h
      simp only [if_pos h, ih]
      constructor
      · rintro ⟨pre, post, rfl, hr, hall⟩
        refine ⟨v :: pre, post, rfl, hr, ?_⟩
        intro w hw
        rcases List.mem_cons.mp hw with rfl | hw
        · exact habs
        · exact hall w hw
      · rintro ⟨pre, post, hsplit, hr, hall⟩
        cases pre with
        | nil =>
          rw [List.nil_append, List.cons_eq_cons] at hsplit
          exact absurd (hsplit.1 ▸ habs) hr
        | cons p pre =>
          rw [List.cons_append, List.cons_eq_cons] at hsplit
          obtain ⟨rfl, htail⟩ := hsplit
          exact ⟨pre, post, htail, hr,
            fun w hw => hall w (List.mem_cons_of_mem _ hw)⟩
    · have habs : ¬ AbsentSpec v := fun ha => h ((isPlaceholder_iff_absent v).mpr ha)
      simp only [if_neg h]
      constructor
      · rintro rfl
        exact ⟨[], cs, rfl, habs, by simp⟩
      · rintro ⟨pre, post, hsplit, hr, hall⟩
        cases pre with
        | nil =>
          rw [List.nil_append, List.cons_eq_cons] at hsplit
          exact hsplit.1
        | cons p pre =>
          rw [List.cons_append, List.cons_eq_cons] at hsplit
          obtain ⟨rfl, -⟩ := hsplit
          exact absurd (hall _ (List.mem_cons_self _ pre)) habs

lemma string_eq_of_data {s t : String} (h : s.data = t.data) : s = t :=
  congrArg String.mk h

lemma hasApiSuffix_of_rev (s : String) (rest : List Char)
    (h : s.data.reverse = 'i' :: 'p' :: 'a' :: '/' :: rest) :
    hasApiSuffix s = true := by
  unfold hasApiSuffix
  rw [h]
  rfl

lemma stripTrailingSlashes_of_rev_i (s : String) (rest : List Char)
    (h : s.data.reverse = 'i' :: rest) : stripTrailingSlashes s = s := by
  unfold stripTrailingSlashes dropTrailingSlashes
  rw [h, List.dropWhile_cons]
  simp only [show (('i' == '/') = false) from rfl, if_false]
  apply string_eq_of_data
  show ('i' :: rest).reverse = s.data
  rw [← h, List.reverse_reverse]

lemma ensureApiSuffix_rev (s : String) :
    ∃ rest, (ensureApiSuffix s).data.reverse = 'i' :: 'p' :: 'a' :: '/' :: rest := by
  by_cases h : hasApiSuffix s = true
  · rw [ensureApiSuffix, if_pos h]
    unfold hasApiSuffix at h
    revert h
    split
    case _ rest heq => exact fun _ => ⟨_, heq⟩
    case _ => intro h; cases h
  · rw [ensureApiSuffix, if_neg h]
    refine ⟨s.data.reverse, ?_⟩
    have hdata : (s ++ "/api").data = s.data ++ "/api".data := by simp
    rw [hdata, List.reverse_append]
    rfl

lemma normalizeBaseUrl_idem (s : String) :
    normalizeBaseUrl (normalizeBaseUrl s) = normalizeBaseUrl s := by
  obtain ⟨rest, hrev⟩ := ensureApiSuffix_rev (stripTrailingSlashes s)
  show normalizeBaseUrl (ensureApiSuffix (stripTrailingSlashes s))
      = ensureApiSuffix (stripTrailingSlashes s)
  set r := ensureApiSuffix (stripTrailingSlashes s) with hr
  rw [normalizeBaseUrl, stripTrailingSlashes_of_rev_i r _ hrev,
    ensureApiSuffix, if_pos (hasApiSuffix_of_rev r rest hrev)]

/- ### Chat store lemmas -/

lemma subsetInv_normalize (e : Bool) (st : ChatScopeState) :
    ScopeSubsetInv (normalizeSelectedScopes e st) := by
  cases e with
  | false =>
    intro i hi
    simp [normalizeSelectedScopes] at hi
  | true =>
    intro i hi
    unfold normalizeSelectedScopes at hi ⊢
    rw [if_neg (by decide : ¬ ((!true) = true))] at hi ⊢
    simp only [List.mem_filter] at hi
    simpa using hi.2

lemma normalize_availableScopes (e : Bool) (st : ChatScopeState) :
    (normalizeSelectedScopes e st).availableScopes = st.availableScopes := by
  unfold normalizeSelectedScopes
  cases e <;> rfl

lemma subsetInv_update (e : Bool) (tr : String → String) (token : Option String)
    (claims : Option TokenClaims) (st : ChatScopeState) :
    ScopeSubsetInv (updateAvailableScopes e tr token claims st) := by
  unfold updateAvailableScopes
  cases token <;> exact subsetInv_normalize e _

lemma normalize_selected_of_nil (e : Bool) (st : ChatScopeState)
    (h : st.selectedScopeIds = []) :
    (normalizeSelectedScopes e st).selectedScopeIds = [] := by
  cases e with
  | false => rfl
  | true =>
    unfold normalizeSelectedScopes
    rw [if_neg (by decide : ¬ ((!true) = true))]
    simp [h]

lemma normalize_storage_of_nil (st : ChatScopeState)
    (h : st.selectedScopeIds = []) :
    (normalizeSelectedScopes true st).storage = some [] := by
  unfold normalizeSelectedScopes
  rw [if_neg (by decide : ¬ ((!true) = true))]
  simp [h]

/- ### Injector lemmas -/

lemma replaceAllGo_of_not_contains (pat val : List Char) :
    ∀ (fuel : Nat) (l : List Char), l.length ≤ fuel →
      containsSub pat l = false → replaceAllGo pat val fuel l = l := by
  intro fuel
  induction fuel with
  | zero =>
    intro l hlen hc
    have : l = [] := List.eq_nil_of_length_eq_zero (Nat.le_zero.mp hlen)
    subst this
    rfl
  | succ n ih =>
    intro l hlen hc
    cases l with
    | nil => rfl
    | cons c rest =>
      simp only [containsSub, Bool.or_eq_false_iff] at hc
      show replaceAllGo pat val (n + 1) (c :: rest) = c :: rest
      simp only [replaceAllGo]
      rw [if_neg (by simp [hc.1])]
      have hlen' : rest.length ≤ n := by
        simpa [Nat.succ_le_succ_iff] using hlen
      rw [ih rest hlen' hc.2]

lemma replaceAll_of_not_contains (pat val l : List Char)
    (h : containsSub pat l = false) : replaceAll pat val l = l := by
  unfold replaceAll
  split
  · rfl
  · exact replaceAllGo_of_not_contains pat val l.length l (Nat.le_refl _) h

lemma injectEnvFile_of_no_keys :
    ∀ (env : List (String × String)) (g : String),
      (∀ kv ∈ env, containsSub kv.1.data g.data = false) →
      injectEnvFile env g = g := by
  intro env
  induction env with
  | nil => intro g _; rfl
  | cons kv env ih =>
    intro g h
    show List.foldl _ g (kv :: env) = g
    rw [List.foldl_cons]
    have h1 : (⟨replaceAll kv.1.data kv.2.data g.data⟩ : String) = g := by
      rw [replaceAll_of_not_contains _ _ _ (h kv (List.mem_cons_self _ _))]
    show injectEnvFile env ⟨replaceAll kv.1.data kv.2.data g.data⟩ = g
    rw [h1]
    exact ih g (fun kv' hkv' => h kv' (List.mem_cons_of_mem _ hkv'))

/- ### Refresh manager lemma -/

lemma foldl_requestWhileExpired (cs : List Nat) :
    ∀ (ws : List Nat) (n : Nat),
      cs.foldl requestWhileExpired ⟨some ws, n⟩
        = ⟨some (ws ++ cs), n⟩ := by
  induction cs with
  | nil => intro ws n; simp
  | cons c cs ih =>
    intro ws n
    rw [List.foldl_cons,
      show requestWhileExpired ⟨some ws, n⟩ c = ⟨some (ws ++ [c]), n⟩ from rfl,
      ih]
    simp

/- ### Claim theorems -/

/-- C1: `pickValue` returns the first candidate that is not absent, and
`undefined` exactly when every candidate is absent, where absent means
undefined, empty, or `VITE_` followed only by uppercase letters, digits or
underscores. -/
theorem claim_C1_resolver_first_non_absent :
    ∀ cs : List (Option String),
      (∀ v, isPlaceholder v = true ↔ AbsentSpec v) ∧
      (pickValue cs = none ↔ ∀ v ∈ cs, AbsentSpec v) ∧
      (∀ r, pickValue cs = some r ↔
        ∃ pre post, cs = pre ++ some r :: post ∧ ¬ AbsentSpec (some r) ∧
          ∀ v ∈ pre, AbsentSpec v) :=
  fun cs =>
    ⟨isPlaceholder_iff_absent, pickValue_eq_none_iff cs,
      fun r => pickValue_eq_some_iff cs r⟩

/-- C2 counterexample: restoring a stored selection does not prune ids that
are not among the available scopes, so the subset invariant fails right
after `restoreSelectedScopes`; moreover `logout` (with the scope selector
enabled) re-persists the empty selection, so the storage key is present
rather than absent. -/
theorem claim_C2_counterexample :
    (restoreSelectedScopes true c2CounterState).selectedScopeIds = ["stale"] ∧
    ¬ ScopeSubsetInv (restoreSelectedScopes true c2CounterState) ∧
    (logoutChat true (fun s => s) c2CounterState).storage = some [] := by
  refine ⟨rfl, by decide, rfl⟩

/-- C2 amended: after normalizing, updating the available scopes, logging
out, toggling (selector enabled) or selecting-all (selector enabled), the
selected ids are a subset of the available scope ids; restoring from
storage adopts the stored list verbatim and may violate the subset
property until the next normalization.  Normalization (selector enabled)
removes every selected id not in the available set and persists the pruned
list.  Logout empties the in-memory selection; it leaves the storage key
holding the empty list when the selector is enabled (its closing
`updateAvailableScopes` re-persists the pruned empty selection) and absent
when the selector is disabled. -/
theorem claim_C2_scope_subset_amended (enabled : Bool) (tr : String → String)
    (token : Option String) (claims : Option TokenClaims) (scopeId : String)
    (st : ChatScopeState) :
    ScopeSubsetInv (normalizeSelectedScopes enabled st) ∧
    ScopeSubsetInv (updateAvailableScopes enabled tr token claims st) ∧
    ScopeSubsetInv (logoutChat enabled tr st) ∧
    ScopeSubsetInv (toggleScope true scopeId st) ∧
    ScopeSubsetInv (selectAllScopes true st) ∧
    (normalizeSelectedScopes true st).selectedScopeIds
      = st.selectedScopeIds.filter
          (fun i => (st.availableScopes.map (fun s => s.id)).contains i) ∧
    (normalizeSelectedScopes true st).storage
      = some (st.selectedScopeIds.filter
          (fun i => (st.availableScopes.map (fun s => s.id)).contains i)) ∧
    (logoutChat enabled tr st).selectedScopeIds = [] ∧
    (logoutChat true tr st).storage = some [] ∧
    (logoutChat false tr st).storage = none ∧
    (restoreSelectedScopes false st).selectedScopeIds = [] := by
  refine ⟨subsetInv_normalize enabled st,
    subsetInv_update enabled tr token claims st,
    subsetInv_update enabled tr none none _,
    ?_, ?_, ?_, ?_, ?_, ?_, rfl, rfl⟩
  · unfold toggleScope
    rw [if_neg (by decide : ¬ ((!true) = true))]
    exact subsetInv_normalize true _
  · unfold selectAllScopes
    rw [if_neg (by decide : ¬ ((!true) = true))]
    intro i hi
    simp [persistSelectedScopes] at hi
  · unfold normalizeSelectedScopes
    rw [if_neg (by decide : ¬ ((!true) = true))]
  · unfold normalizeSelectedScopes
    rw [if_neg (by decide : ¬ ((!true) = true))]
  · unfold logoutChat updateAvailableScopes
    exact normalize_selected_of_nil enabled _ rfl
  · unfold logoutChat updateAvailableScopes
    exact normalize_storage_of_nil _ rfl

/-- C3: the chat request interceptor attaches `Authorization: Bearer
<token>` and clears any basic-auth credential whenever the token accessor
yields a token; with no token the request config passes through unchanged,
so a fresh request carries no Authorization header while keeping the
configured basic auth. -/
theorem claim_C3_bearer_dominates (t : String) (cfg : RequestConfig)
    (basic : Option BasicCreds) :
    (requestInterceptor (some t) cfg).headers.authorization
      = some ("Bearer " ++ t) ∧
    (requestInterceptor (some t) cfg).auth = none ∧
    requestInterceptor none cfg = cfg ∧
    (chatRequestOf (some t) basic).headers.authorization
      = some ("Bearer " ++ t) ∧
    (chatRequestOf (some t) basic).auth = none ∧
    (chatRequestOf none basic).headers.authorization = none ∧
    (chatRequestOf none basic).auth = basic :=
  ⟨rfl, rfl, rfl, rfl, rfl, rfl, rfl⟩

/-- C4: base-URL normalization yields `http://host/api` on
`http://host/api/`, and applying it twice to any string equals applying it
once. -/
theorem claim_C4_baseurl_idempotent :
    normalizeBaseUrl "http://host/api/" = "http://host/api" ∧
    apiBaseUrlOf (some "http://host/api/") = "http://host/api" ∧
    ∀ s : String, normalizeBaseUrl (normalizeBaseUrl s) = normalizeBaseUrl s :=
  ⟨by decide, by decide, normalizeBaseUrl_idem⟩

/-- C10: the available scope list starts with the global scope
(`shared_global`) initially and after every `updateAvailableScopes`, for
any token/claims; with no token it is exactly the single global option. -/
theorem claim_C10_global_scope_first :
    ∀ (stored : Option (List String)) (enabled : Bool) (tr : String → String)
      (token : Option String) (claims : Option TokenClaims)
      (st : ChatScopeState),
      (chatStoreInit stored).availableScopes = [⟨"shared_global", "Global"⟩] ∧
      ((updateAvailableScopes enabled tr token claims st).availableScopes.head?).map
          (fun o => o.id) = some "shared_global" ∧
      (updateAvailableScopes enabled tr none claims st).availableScopes
        = [globalScope tr] := by
  intro stored enabled tr token claims st
  refine ⟨rfl, ?_, ?_⟩
  · unfold updateAvailableScopes
    cases token with
    | none => rw [normalize_availableScopes]; rfl
    | some t =>
      rw [normalize_availableScopes]
      cases claims with
      | none => rfl
      | some c => rfl
  · unfold updateAvailableScopes
    rw [normalize_availableScopes]

/-- C5 counterexample: with the environment `VITE_A=zVITE_Az` (a value
containing a key name) and a built file reading `VITE_A`, the first
injector run produces `zVITE_Az` and the second `zzVITE_Azz` — the second
run changes the file, so injection is not idempotent for arbitrary
environments. -/
theorem claim_C5_counterexample :
    injectEnvFile c5Env c5File = "zVITE_Az" ∧
    injectEnvFile c5Env (injectEnvFile c5Env c5File) = "zzVITE_Azz" ∧
    injectEnvFile c5Env (injectEnvFile c5Env c5File)
      ≠ injectEnvFile c5Env c5File :=
  ⟨by decide, by decide, by decide⟩

/-- C5 amended: a second injector run with the same environment leaves
every static file unchanged provided no environment key occurs in any file
after the first run (as in the intended use, where values are resolved
configuration strings, not placeholder tokens); a value that reintroduces
a key name breaks idempotency, as the counterexample shows.  The generated
`config.js` is a pure function of the environment, rewritten identically
on every run. -/
theorem claim_C5_injector_idempotent_amended (env : List (String × String))
    (files : List String)
    (h : ∀ kv ∈ env, ∀ f ∈ injectEnvFiles env files,
      containsSub kv.1.data f.data = false) :
    injectEnvFiles env (injectEnvFiles env files) = injectEnvFiles env files := by
  have hfix : ∀ f ∈ injectEnvFiles env files, injectEnvFile env f = f :=
    fun f hf => injectEnvFile_of_no_keys env f (fun kv hkv => h kv hkv f hf)
  show (injectEnvFiles env files).map (injectEnvFile env)
      = injectEnvFiles env files
  calc (injectEnvFiles env files).map (injectEnvFile env)
      = (injectEnvFiles env files).map id := List.map_congr_left hfix
    _ = injectEnvFiles env files := List.map_id _

theorem claim_C5_injector_idempotent_amended_witness :
    injectEnvFiles [("VITE_API_URL", "https://x")]
        (injectEnvFiles [("VITE_API_URL", "https://x")] ["url=VITE_API_URL;"])
      = injectEnvFiles [("VITE_API_URL", "https://x")] ["url=VITE_API_URL;"] :=
  claim_C5_injector_idempotent_amended [("VITE_API_URL", "https://x")]
    ["url=VITE_API_URL;"] (by decide)

/-- C6 (modelled from the spec, auth.service is not under `src/`): a batch
of concurrent get-access-token callers hitting an expired token issues
exactly one renewal network call, and every caller observes the renewal's
one outcome — the same renewed token or the identical failure. -/
theorem claim_C6_single_renewal (callers : List Nat)
    (outcome : Except String String) (h : callers ≠ []) :
    (runConcurrentRefresh callers outcome).1 = 1 ∧
    (runConcurrentRefresh callers outcome).2
      = callers.map (fun c => (c, outcome)) := by
  cases callers with
  | nil => exact absurd rfl h
  | cons c cs =>
    unfold runConcurrentRefresh
    rw [List.foldl_cons,
      show requestWhileExpired ⟨none, 0⟩ c = ⟨some [c], 1⟩ from rfl,
      foldl_requestWhileExpired]
    exact ⟨rfl, rfl⟩

theorem claim_C6_single_renewal_witness :
    (runConcurrentRefresh [0, 1, 2] (Except.ok "tok")).1 = 1 ∧
    (runConcurrentRefresh [0, 1, 2] (Except.ok "tok")).2
      = [(0, Except.ok "tok"), (1, Except.ok "tok"), (2, Except.ok "tok")] :=
  claim_C6_single_renewal [0, 1, 2] (Except.ok "tok") (by decide)

lemma decode_none_of_atob_none (jparse : String → Option TokenClaims)
    (token : String) :
    decodeJwtClaims (fun _ => none) jparse token = none := by
  simp only [decodeJwtClaims]
  split
  · rfl
  · rfl

lemma decode_none_of_jparse_none (atob : String → Option String)
    (token : String) :
    decodeJwtClaims atob (fun _ => none) token = none := by
  simp only [decodeJwtClaims]
  split
  · rfl
  · split <;> rfl

/-- C7: the claim decoder is a total function into `Option` (it cannot
throw); it returns `null` whenever the token has fewer than two
dot-separated parts, the base64 decode fails, or the JSON parse fails, and
the upload-target option building then stays at the default tenant-only
list. -/
theorem claim_C7_decoder_never_throws (atob : String → Option String)
    (jparse : String → Option TokenClaims) (token : String)
    (tr : String → String) (flag : Bool) (t : String) :
    ((jsSplitDot token).length < 2 →
      decodeJwtClaims atob jparse token = none) ∧
    decodeJwtClaims (fun _ => none) jparse token = none ∧
    decodeJwtClaims atob (fun _ => none) token = none ∧
    (decodeJwtClaims atob jparse t = none →
      mountUploadTargetOptions tr flag (some t) atob jparse
        = defaultTargetOptions tr) ∧
    mountUploadTargetOptions tr flag none atob jparse
      = defaultTargetOptions tr ∧
    mountUploadTargetOptions tr false (some t) atob jparse
      = defaultTargetOptions tr := by
  refine ⟨?_, decode_none_of_atob_none jparse token,
    decode_none_of_jparse_none atob token, ?_, ?_, rfl⟩
  · intro h
    simp only [decodeJwtClaims]
    rw [if_pos h]
  · intro h
    cases flag with
    | false => rfl
    | true =>
      simp only [mountUploadTargetOptions]
      rw [if_neg (by decide : ¬ ((!true) = true)), h]
  · cases flag <;> rfl

theorem claim_C7_decoder_never_throws_witness :
    decodeJwtClaims (fun _ => some "x") (fun _ => none) "abc" = none ∧
    mountUploadTargetOptions (fun s => s) true (some "abc")
        (fun _ => some "x") (fun _ => none)
      = defaultTargetOptions (fun s => s) := by
  have h := claim_C7_decoder_never_throws (fun _ => some "x")
    (fun _ => none) "abc" (fun s => s) true "abc"
  exact ⟨h.2.2.1, h.2.2.2.1 h.2.2.1⟩

/-- C8: with the upload-sharing flag disabled, resolving the upload target
yields `undefined` (the caller's-own-tenant sentinel) whatever the
selected option is; selecting `my_tenant` also yields `undefined`. -/
theorem claim_C8_disabled_flag_owns_tenant (flag : Bool)
    (options : List TargetOption) (selected : String) :
    resolveTargetSpaceId false options selected = none ∧
    resolveTargetSpaceId flag options "my_tenant" = none := by
  constructor
  · rfl
  · unfold resolveTargetSpaceId
    cases h : showUploadTargetSelector flag options <;> simp

/-- C9: every document-API operation, on a failing transport outcome, logs
the failure (with the response body when present and non-empty, the
message otherwise) and rethrows exactly the original error; each operation
attempts its request once. -/
theorem claim_C9_log_and_rethrow (e : ApiFailure) (msg d : String)
    (file docId refId : String) (cfgC : ConfluenceConfig)
    (cfgS : SitemapConfig) (jsonValid : String → Bool) (payload : List KV) :
    loadDocuments (.error e) = ([errorLogLine e], .error e) ∧
    uploadDocument file (fun _ => .error e) = ([errorLogLine e], .error e) ∧
    loadConfluence (fun _ => .error e) cfgC = ([errorLogLine e], .error e) ∧
    (sitemapPayload jsonValid cfgS = .ok payload →
      loadSitemap jsonValid (fun _ => .error e) cfgS
        = ([errorLogLine e], .error e)) ∧
    deleteDocument (fun _ => .error e) docId = ([errorLogLine e], .error e) ∧
    getDocumentReference (fun _ => .error e) refId
      = ([errorLogLine e], .error e) ∧
    (d ≠ "" → errorLogLine (.axios msg (some d)) = "Axios error: " ++ d) ∧
    errorLogLine (.axios msg none) = "Axios error: " ++ msg := by
  refine ⟨rfl, rfl, rfl, ?_, rfl, rfl, ?_, rfl⟩
  · intro h
    simp only [loadSitemap]
    rw [h]
    rfl
  · intro h
    simp only [errorLogLine]
    rw [if_neg h]

theorem claim_C9_log_and_rethrow_witness :
    loadSitemap (fun _ => true) (fun _ => .error (.unexpected "boom"))
        sitemapCfgW
      = (["Unexpected error: boom"], .error (.unexpected "boom")) ∧
    errorLogLine (.axios "m" (some "detail")) = "Axios error: detail" := by
  have h := claim_C9_log_and_rethrow (.unexpected "boom") "m" "detail"
    "f" "id" "id2" confluenceCfgW sitemapCfgW (fun _ => true)
    [⟨"web_path", "https://s"⟩]
  exact ⟨h.2.2.2.1 rfl, h.2.2.2.2.2.2.1 (by decide)⟩

end RagFrontend
